import Mathlib

/-!
Verification of the SSD1306 bitmap-to-C-array converter
(`src/logo/bmp-to-logo.py`) against its natural-language specification.

The script's core is `convert_bmp_to_ssd1306_array`: it takes a decoded
1-bit monochrome pixel grid (pixel samples 0 or 255 after PIL's
`img.convert('1')`), packs it into the SSD1306's page/column/bit memory
order, and renders the bytes as a C array literal.  We embed the packing
loop, the C-code line formatting, the dimension-handling branch and the
CLI file-existence check as Lean functions, and prove the specification's
claims about them.
-/

namespace Ssd1306

/-- A decoded monochrome pixel grid: `pixels x y` is the 1-bit sample at
column `x`, row `y` (0 for a dark pixel, 255 for a light one, matching
the values PIL's `img.load()` yields after `img.convert('1')`). -/
def PixelGrid : Type := Nat → Nat → Nat

/-- Embeds line 52 of the source:
`bit_value = 1 if pixel_value == 0 else 0` — a dark sample (0) becomes a
lit display pixel (1), anything else becomes unlit (0). -/
def bitValue (pixelValue : Nat) : Nat :=
  if pixelValue = 0 then 1 else 0

/-- Embeds the inner `for bit in range(8)` loop of the source (lines
45-55): builds the output byte for page `page`, column `x`, OR-ing
`bit_value << bit` for each bit whose source row `y = page * 8 + bit`
lies inside the image. -/
def packByte (pixels : PixelGrid) (height x page : Nat) : Nat :=
  (List.range 8).foldl
    (fun byteValue bit =>
      let y := page * 8 + bit
      if y < height then byteValue ||| (bitValue (pixels x y) <<< bit)
      else byteValue)
    0

/-- Embeds the packing loops of the source (lines 43-56): pages in the
outer loop, columns within each page, one byte appended per `(page, x)`.
`pages = height / 8` mirrors `pages = height // 8`. -/
def convert (pixels : PixelGrid) (width height : Nat) : List Nat :=
  (List.range (height / 8)).flatMap
    (fun page => (List.range width).map (fun x => packByte pixels height x page))

/-- A pixel is lit on the display exactly when its 1-bit sample is 0
(the polarity rule of line 52 of the source). -/
def isLit (pixelValue : Nat) : Bool :=
  pixelValue == 0

/-- Inverse of the packing step: the lit state of pixel `(x, y)` read
back from the packed bytes, i.e. bit `y % 8` of the byte at output index
`(y / 8) * width + x`. -/
def unpackLit (bytes : List Nat) (width x y : Nat) : Bool :=
  Nat.testBit (bytes.getD ((y / 8) * width + x) 0) (y % 8)

/-! ### Helper lemmas about the packed bytes -/

theorem length_flatMap_range_map {α : Type} (n w : Nat) (f : Nat → Nat → α) :
    ((List.range n).flatMap (fun p => (List.range w).map (f p))).length = n * w := by
  induction n with
  | zero => simp
  | succ n ih =>
    rw [List.range_succ, List.flatMap_append]
    simp [ih, Nat.succ_mul]

theorem getElem?_flatMap_range_map {α : Type} (n w : Nat) (f : Nat → Nat → α)
    (p x : Nat) (hp : p < n) (hx : x < w) :
    ((List.range n).flatMap (fun p => (List.range w).map (f p)))[p * w + x]? =
      some (f p x) := by
  induction n with
  | zero => omega
  | succ n ih =>
    rw [List.range_succ, List.flatMap_append, List.getElem?_append,
      length_flatMap_range_map]
    rcases Nat.lt_or_ge p n with h | h
    · have hlt : p * w + x < n * w := by
        have : (p + 1) * w ≤ n * w := Nat.mul_le_mul_right _ h
        have : p * w + w ≤ n * w := by rw [Nat.succ_mul] at this; omega
        omega
      rw [if_pos hlt]
      exact ih h
    · have hpage : p = n := by omega
      subst hpage
      rw [if_neg (by omega)]
      have hsub : p * w + x - p * w = x := by omega
      simp [hsub, hx]

theorem length_convert (pixels : PixelGrid) (width height : Nat) :
    (convert pixels width height).length = width * (height / 8) := by
  rw [convert, length_flatMap_range_map, Nat.mul_comm]

theorem getElem?_convert (pixels : PixelGrid) (width height page x : Nat)
    (hp : page < height / 8) (hx : x < width) :
    (convert pixels width height)[page * width + x]? =
      some (packByte pixels height x page) := by
  rw [convert]
  exact getElem?_flatMap_range_map _ _ _ _ _ hp hx

theorem testBit_bitValue_zero (pv : Nat) :
    Nat.testBit (bitValue pv) 0 = (bitValue pv == 1) := by
  unfold bitValue
  split <;> decide

theorem decide_mod_two_bitValue (pv : Nat) :
    decide (bitValue pv % 2 = 1) = (bitValue pv == 1) := by
  unfold bitValue
  split <;> rfl

theorem testBit_bitValue_succ (pv k : Nat) :
    Nat.testBit (bitValue pv) (k + 1) = false := by
  unfold bitValue
  split
  · simp [Nat.testBit_succ]
  · simp

theorem testBit_packByte (pixels : PixelGrid) (x page b : Nat)
    (hp : page < 8) (hb : b < 8) :
    Nat.testBit (packByte pixels 64 x page) b =
      (bitValue (pixels x (page * 8 + b)) == 1) := by
  have hy : ∀ bit, bit < 8 → page * 8 + bit < 64 := by omega
  have h0 := hy 0; have h1 := hy 1; have h2 := hy 2; have h3 := hy 3
  have h4 := hy 4; have h5 := hy 5; have h6 := hy 6; have h7 := hy 7
  simp only [packByte, List.range_succ, List.range_zero, List.nil_append,
    List.cons_append, List.foldl_cons, List.foldl_nil]
  rw [if_pos (h0 (by omega)), if_pos (h1 (by omega)), if_pos (h2 (by omega)),
    if_pos (h3 (by omega)), if_pos (h4 (by omega)), if_pos (h5 (by omega)),
    if_pos (h6 (by omega)), if_pos (h7 (by omega))]
  interval_cases b <;>
    simp [Nat.testBit_or, Nat.testBit_shiftLeft, testBit_bitValue_zero,
      testBit_bitValue_succ, decide_mod_two_bitValue]

theorem bitValue_eq_one_iff (pv : Nat) : (bitValue pv == 1) = (pv == 0) := by
  unfold bitValue
  split <;> simp_all

end Ssd1306

/-! ### Claims about the packing step -/

open Ssd1306

/-- C4: for every grid and geometry the packed output length is
`width * (height / pageRows)` with `pageRows = 8`; in particular a
128x64 grid packs to exactly 1024 bytes. -/
theorem c4_length_invariant (pixels : PixelGrid) (width height : Nat) :
    (convert pixels width height).length = width * (height / 8) ∧
    (convert pixels 128 64).length = 1024 := by
  exact ⟨length_convert pixels width height, by rw [length_convert]⟩

set_option maxRecDepth 4096 in
/-- C5: the all-dark 128x64 grid (every 1-bit sample 0) packs to exactly
1024 bytes, each equal to 0xFF. -/
theorem c5_all_dark :
    convert (fun _ _ => 0) 128 64 = List.replicate 1024 255 := by
  decide

set_option maxRecDepth 4096 in
/-- C6: the all-light 128x64 grid (every 1-bit sample 255) packs to
exactly 1024 bytes, each equal to 0x00. -/
theorem c6_all_light :
    convert (fun _ _ => 255) 128 64 = List.replicate 1024 0 := by
  decide

/-- Bytes built from column segments that agree are equal. -/
theorem packByte_congr (g g' : PixelGrid) (x page : Nat)
    (hagree : ∀ b, b < 8 → g x (page * 8 + b) = g' x (page * 8 + b)) :
    packByte g 64 x page = packByte g' 64 x page := by
  simp only [packByte, List.range_succ, List.range_zero, List.nil_append,
    List.cons_append, List.foldl_cons, List.foldl_nil]
  rw [hagree 0 (by omega), hagree 1 (by omega), hagree 2 (by omega),
    hagree 3 (by omega), hagree 4 (by omega), hagree 5 (by omega),
    hagree 6 (by omega), hagree 7 (by omega)]

/-- C1: the packing step emits bytes in the controller's native order:
the byte for page `page` and column `x` sits at output index
`page * 128 + x`, and its bit `b` is set exactly when the pixel at
column `x`, row `page * 8 + b` is lit in controller terms. -/
theorem c1_native_order (pixels : PixelGrid) (page x b : Nat)
    (hp : page < 8) (hx : x < 128) (hb : b < 8) :
    (convert pixels 128 64)[page * 128 + x]? =
      some (packByte pixels 64 x page) ∧
    Nat.testBit (packByte pixels 64 x page) b =
      isLit (pixels x (page * 8 + b)) := by
  refine ⟨getElem?_convert pixels 128 64 page x (by omega) hx, ?_⟩
  rw [testBit_packByte pixels x page b hp hb, bitValue_eq_one_iff, isLit]

theorem c1_native_order_witness :
    (convert (fun _ _ => 0) 128 64)[2 * 128 + 5]? =
      some (packByte (fun _ _ => 0) 64 5 2) ∧
    Nat.testBit (packByte (fun _ _ => 0) 64 5 2) 3 =
      isLit ((fun _ _ => (0 : Nat)) 5 (2 * 8 + 3)) :=
  c1_native_order (fun _ _ => 0) 2 5 3 (by decide) (by decide) (by decide)

/-- C2: the packer's fixed polarity rule: a bit of a packed byte is set
exactly when the corresponding 1-bit source sample is 0 (dark), so a
dark source pixel (sample 0) becomes a lit display pixel and a light
one (sample 255, or any nonzero sample) becomes unlit, for every input
grid, with no configuration involved. -/
theorem c2_dark_is_lit (pixels : PixelGrid) (page x b : Nat)
    (hp : page < 8) (hx : x < 128) (hb : b < 8) :
    (Nat.testBit (packByte pixels 64 x page) b = true ↔
      pixels x (page * 8 + b) = 0) ∧
    bitValue 0 = 1 ∧ bitValue 255 = 0 := by
  refine ⟨?_, rfl, rfl⟩
  rw [testBit_packByte pixels x page b hp hb, bitValue_eq_one_iff]
  simp

theorem c2_dark_is_lit_witness :
    (Nat.testBit (packByte (fun _ y => y) 64 7 0) 4 = true ↔
      (fun _ y => y) 7 (0 * 8 + 4) = (0 : Nat)) ∧
    bitValue 0 = 1 ∧ bitValue 255 = 0 :=
  c2_dark_is_lit (fun _ y => y) 0 7 4 (by decide) (by decide) (by decide)

/-- C7: round trip: reading bit `y % 8` of output byte
`(y / 8) * 128 + x` recovers exactly the lit state of pixel `(x, y)`,
for every 128x64 grid — unpack after pack is the identity on the
lit/unlit pattern. -/
theorem c7_roundtrip (pixels : PixelGrid) (x y : Nat)
    (hx : x < 128) (hy : y < 64) :
    unpackLit (convert pixels 128 64) 128 x y = isLit (pixels x y) := by
  have hp : y / 8 < 8 := by omega
  have hb : y % 8 < 8 := by omega
  have hidx := getElem?_convert pixels 128 64 (y / 8) x (by omega) hx
  rw [unpackLit, List.getD_eq_getElem?_getD, hidx, Option.getD_some,
    testBit_packByte pixels x (y / 8) (y % 8) hp hb, bitValue_eq_one_iff]
  have hsplit : y / 8 * 8 + y % 8 = y := by omega
  rw [hsplit, isLit]

theorem c7_roundtrip_witness :
    unpackLit (convert (fun x y => x + y) 128 64) 128 3 17 =
      isLit ((fun x y => x + y) 3 17) :=
  c7_roundtrip (fun x y => x + y) 3 17 (by decide) (by decide)

/-- C10: each output byte depends only on its own 8-pixel column
segment: two grids that agree on the pixels at column `x`, rows
`page * 8` through `page * 8 + 7`, get the same byte at output index
`page * 128 + x`, however much they differ elsewhere. -/
theorem c10_byte_locality (g g' : PixelGrid) (page x : Nat)
    (hp : page < 8) (hx : x < 128)
    (hagree : ∀ b, b < 8 → g x (page * 8 + b) = g' x (page * 8 + b)) :
    (convert g 128 64)[page * 128 + x]? =
      (convert g' 128 64)[page * 128 + x]? := by
  rw [getElem?_convert g 128 64 page x (by omega) hx,
    getElem?_convert g' 128 64 page x (by omega) hx,
    packByte_congr g g' x page hagree]

theorem c10_byte_locality_witness :
    (convert (fun _ _ => 0) 128 64)[1 * 128 + 5]? =
      (convert (fun x _ => if x = 10 then 255 else 0) 128 64)[1 * 128 + 5]? :=
  c10_byte_locality (fun _ _ => 0) (fun x _ => if x = 10 then 255 else 0)
    1 5 (by decide) (by decide) (fun _ _ => rfl)

/-! ### C-code emission (lines 68-75 of the source) -/

namespace Ssd1306

/-- Uppercase hexadecimal digit, as produced by Python's `X` format. -/
def hexDigit (n : Nat) : Char :=
  if n < 10 then Char.ofNat (48 + n) else Char.ofNat (55 + n)

/-- The literal Python writes for one byte: `f'0x{b:02X}'`
(two uppercase hexadecimal digits for every byte value below 256). -/
def hexByte (b : Nat) : String :=
  "0x" ++ String.mk [hexDigit (b / 16), hexDigit (b % 16)]

/-- Embeds the emission loop of the source (lines 70-75):
`for i in range(0, len(byte_array), 16)` takes the slice
`byte_array[i:i+16]`, joins its hex literals with `', '`, prefixes four
spaces, and appends a comma exactly when `i + 16 < len(byte_array)`,
i.e. when another line follows. -/
def emitLines (byteArray : List Nat) : List String :=
  if h : byteArray = [] then []
  else
    (if 16 < byteArray.length then
        "    " ++ String.intercalate ", " ((byteArray.take 16).map hexByte) ++ ","
      else
        "    " ++ String.intercalate ", " ((byteArray.take 16).map hexByte)) ::
      emitLines (byteArray.drop 16)
termination_by byteArray.length
decreasing_by
  rw [List.length_drop]
  have : 0 < byteArray.length := List.length_pos.mpr h
  omega

/-- Modelled from the spec: the byte sequence split into consecutive
groups of 16 values, one group per emitted line. -/
def chunk16 (bs : List Nat) : List (List Nat) :=
  if h : bs = [] then []
  else bs.take 16 :: chunk16 (bs.drop 16)
termination_by bs.length
decreasing_by
  rw [List.length_drop]
  have : 0 < bs.length := List.length_pos.mpr h
  omega

/-- Modelled from the spec: a trailing comma on every line except the
last one. -/
def addTrailingCommas : List String → List String
  | [] => []
  | [s] => [s]
  | s :: rest => (s ++ ",") :: addTrailingCommas rest

theorem addTrailingCommas_cons2 (s t : String) (ts : List String) :
    addTrailingCommas (s :: t :: ts) =
      (s ++ ",") :: addTrailingCommas (t :: ts) := rfl

/-- Modelled from the spec:
"0xNN, 0xNN, ... (16 values per line, comma-separated, trailing comma
on all but last line)" — each line holds 16 hexadecimal values joined
by `', '` behind a four-space indent, and every line but the last gets
a trailing comma. -/
def specLines (bs : List Nat) : List String :=
  addTrailingCommas
    ((chunk16 bs).map
      (fun c => "    " ++ String.intercalate ", " (c.map hexByte)))

theorem chunk16_nil : chunk16 [] = [] := by
  rw [chunk16]
  rfl

theorem chunk16_cons (bs : List Nat) (h : bs ≠ []) :
    chunk16 bs = bs.take 16 :: chunk16 (bs.drop 16) := by
  rw [chunk16, dif_neg h]

theorem chunk16_eq_nil_iff (bs : List Nat) : chunk16 bs = [] ↔ bs = [] := by
  constructor
  · intro h
    by_contra hne
    rw [chunk16_cons bs hne] at h
    exact List.cons_ne_nil _ _ h
  · intro h
    rw [h, chunk16_nil]

theorem length_chunk16 (bs : List Nat) :
    (chunk16 bs).length = (bs.length + 15) / 16 := by
  have H : ∀ n (bs : List Nat), bs.length ≤ n →
      (chunk16 bs).length = (bs.length + 15) / 16 := by
    intro n
    induction n with
    | zero =>
      intro bs hb
      have hnil : bs = [] := List.eq_nil_of_length_eq_zero (by omega)
      rw [hnil, chunk16_nil]
      rfl
    | succ n ih =>
      intro bs hb
      by_cases h : bs = []
      · rw [h, chunk16_nil]
        rfl
      · have hpos : 0 < bs.length := List.length_pos.mpr h
        rw [chunk16_cons bs h, List.length_cons,
          ih (bs.drop 16) (by rw [List.length_drop]; omega),
          List.length_drop]
        omega
  exact H bs.length bs le_rfl

theorem emitLines_eq_specLines (bs : List Nat) : emitLines bs = specLines bs := by
  have H : ∀ n (bs : List Nat), bs.length ≤ n → emitLines bs = specLines bs := by
    intro n
    induction n with
    | zero =>
      intro bs hb
      have hnil : bs = [] := List.eq_nil_of_length_eq_zero (by omega)
      rw [hnil, emitLines, specLines, chunk16_nil]
      rfl
    | succ n ih =>
      intro bs hb
      by_cases h : bs = []
      · rw [h, emitLines, specLines, chunk16_nil]
        rfl
      · have hpos : 0 < bs.length := List.length_pos.mpr h
        rw [emitLines, dif_neg h, specLines, chunk16_cons bs h, List.map_cons]
        by_cases h16 : 16 < bs.length
        · have hdrop : bs.drop 16 ≠ [] := by
            intro hd
            rw [List.drop_eq_nil_iff] at hd
            omega
          have hcne : chunk16 (bs.drop 16) ≠ [] :=
            fun hc => hdrop ((chunk16_eq_nil_iff _).mp hc)
          obtain ⟨c, cs, hcs⟩ := List.exists_cons_of_ne_nil hcne
          rw [if_pos h16, hcs, List.map_cons, addTrailingCommas_cons2]
          have htail : emitLines (bs.drop 16) = specLines (bs.drop 16) :=
            ih (bs.drop 16) (by rw [List.length_drop]; omega)
          rw [htail, specLines, hcs, List.map_cons]
        · have hdrop : bs.drop 16 = [] := by
            rw [List.drop_eq_nil_iff]
            omega
          rw [if_neg h16, hdrop, chunk16_nil, List.map_nil, emitLines]
          rfl
  exact H bs.length bs le_rfl

end Ssd1306

/-- C8: the emitted C array body lists the bytes as hexadecimal values,
16 per line, comma-separated within a line, with a trailing comma on
every line except the last (`specLines` states exactly that format);
for a 1024-byte array this yields 64 lines, the 64th carrying no
trailing comma. -/
theorem c8_c_literal_format (bs : List Nat) :
    emitLines bs = specLines bs ∧
    (bs.length = 1024 → (emitLines bs).length = 64) := by
  refine ⟨emitLines_eq_specLines bs, fun h1024 => ?_⟩
  have hlen : (specLines bs).length = (chunk16 bs).length := by
    rw [specLines]
    have H : ∀ l : List String, (addTrailingCommas l).length = l.length := by
      intro l
      induction l with
      | nil => rfl
      | cons s rest ih =>
        cases rest with
        | nil => rfl
        | cons t ts =>
          rw [addTrailingCommas_cons2, List.length_cons, ih]
          simp
    rw [H, List.length_map]
  rw [emitLines_eq_specLines bs, hlen, length_chunk16, h1024]

theorem c8_c_literal_format_witness :
    emitLines (List.replicate 1024 0) = specLines (List.replicate 1024 0) ∧
    (emitLines (List.replicate 1024 0)).length = 64 :=
  ⟨(c8_c_literal_format (List.replicate 1024 0)).1,
    (c8_c_literal_format (List.replicate 1024 0)).2
      (by rw [List.length_replicate])⟩

/-! ### Dimension handling (lines 20-24) and the CLI gate (lines 117-120) -/

namespace Ssd1306

/-- An opened source image: its reported size plus its (post-`convert('1')`)
1-bit samples. -/
structure SourceImage where
  width : Nat
  height : Nat
  pixels : PixelGrid

/-- The error taxonomy the specification assigns to the converter. -/
inductive ConvError where
  | dimensionMismatch
  | fileNotFound
deriving DecidableEq

/-- Embeds the dimension handling and packing of
`convert_bmp_to_ssd1306_array` (lines 20-24 and 43-56 of the source):
when `img.size != (128, 64)` the script only prints a warning and
rescales the image to 128x64 (`img.resize((128, 64), LANCZOS)` — the
resampling itself is PIL's, supplied here as the external `resize`
collaborator), then packs the resulting 128x64 grid; it never signals
an error for mismatched dimensions.  Returns the warnings printed and
the packed bytes. -/
def convert_bmp_to_ssd1306_array (img : SourceImage)
    (resize : SourceImage → PixelGrid) :
    Except ConvError (List String × List Nat) :=
  if (img.width, img.height) ≠ (128, 64) then
    Except.ok (["Предупреждение: размер изображения не соответствует 128x64, будет масштабировано"],
      convert (resize img) 128 64)
  else
    Except.ok ([], convert img.pixels 128 64)

/-- Observable outcome of one program run, as far as the claims are
concerned: the exit status, what was printed where, and whether packed
bytes were emitted. -/
structure RunOutcome where
  exitCode : Nat
  stdoutLines : List String
  stderrLines : List String
  packedOutput : Option (List Nat)
deriving DecidableEq

/-- Embeds the file-existence gate of `main` (lines 117-120 of the
source): when `os.path.exists(args.input)` is false the script calls
`print(f"Ошибка: Файл ... не найден")` — plain `print`, hence standard
output, not stderr — and then `sys.exit(1)`, before any conversion
runs.  `none` means the gate passes and `main` goes on to convert. -/
def fileCheckGate (fileExists : Bool) (path : String) : Option RunOutcome :=
  if fileExists = false then
    some { exitCode := 1
           stdoutLines := ["Ошибка: Файл \x27" ++ path ++ "\x27 не найден"]
           stderrLines := []
           packedOutput := none }
  else
    none

end Ssd1306

open Ssd1306 in
/-- C3 counterexample: a 100x50 image against the 128x64 geometry does
NOT make the conversion fail with a DimensionMismatch error — the
script succeeds (warning plus packed bytes), so the claim as stated is
false of the code. -/
theorem c3_counterexample :
    convert_bmp_to_ssd1306_array ⟨100, 50, fun _ _ => 0⟩
        (fun _ => fun _ _ => 0) ≠
      Except.error ConvError.dimensionMismatch ∧
    (convert_bmp_to_ssd1306_array ⟨100, 50, fun _ _ => 0⟩
        (fun _ => fun _ _ => 0)).isOk = true := by
  constructor
  · intro h
    rw [convert_bmp_to_ssd1306_array] at h
    split at h <;> simp at h
  · rfl

/-- C3 amended: for every input image whose dimensions differ from
128x64, the conversion performs no fail-fast check: it prints a warning,
rescales the image to 128x64 (resampling delegated to the external
resizer), and succeeds with the packed bytes of the rescaled grid; no
DimensionMismatch error is ever signalled. -/
theorem c3_rescales_mismatched (img : SourceImage)
    (resize : SourceImage → PixelGrid)
    (hmis : (img.width, img.height) ≠ (128, 64)) :
    convert_bmp_to_ssd1306_array img resize =
      Except.ok (["Предупреждение: размер изображения не соответствует 128x64, будет масштабировано"],
        convert (resize img) 128 64) := by
  rw [convert_bmp_to_ssd1306_array, if_pos hmis]

theorem c3_rescales_mismatched_witness :
    convert_bmp_to_ssd1306_array ⟨100, 50, fun _ _ => 0⟩
        (fun _ => fun _ _ => 0) =
      Except.ok (["Предупреждение: размер изображения не соответствует 128x64, будет масштабировано"],
        convert (fun _ _ => 0) 128 64) :=
  c3_rescales_mismatched ⟨100, 50, fun _ _ => 0⟩ (fun _ => fun _ _ => 0)
    (by decide)

open Ssd1306 in
/-- C9 counterexample: when the input path does not exist the script
exits with status 1 and emits no packed output, but the error message
goes to standard output — stderr stays empty, so the claim's "writes a
human-readable error message to stderr" is false of the code. -/
theorem c9_counterexample :
    (fileCheckGate false "image.bmp").map (fun r => r.stderrLines) =
      some [] ∧
    (fileCheckGate false "image.bmp").map (fun r => r.stdoutLines) =
      some ["Ошибка: Файл \x27image.bmp\x27 не найден"] ∧
    (fileCheckGate false "image.bmp").map (fun r => r.exitCode) = some 1 :=
  ⟨rfl, rfl, rfl⟩

/-- C9 amended: for every input path that does not name an existing
file, the program exits with status 1 (non-zero), prints a
human-readable error message to standard output (not stderr, which
receives nothing), and emits no packed output. -/
theorem c9_missing_file (path : String) :
    fileCheckGate false path =
      some { exitCode := 1
             stdoutLines := ["Ошибка: Файл \x27" ++ path ++ "\x27 не найден"]
             stderrLines := []
             packedOutput := none } :=
  rfl
